import Mathlib

/-
Verification of the csv-to-json-converter core: a shallow embedding of the
CSV tokenizer, the header-to-nested-object record mapper, the parse
orchestrator, the batched transactional persister, and the age-statistics
aggregator, together with theorems settling the specification claims.
-/

set_option autoImplicit false

namespace CsvToJson

/-- ASCII whitespace as trimmed by JS `String.prototype.trim` on the
characters that occur in CSV data. -/
def isWS (c : Char) : Bool :=
  c = ' ' || c = '\t' || c = '\n' || c = '\r'

/-- Model of JS `s.trim()` on a list of characters. -/
def jsTrim (l : List Char) : List Char :=
  ((l.dropWhile isWS).reverse.dropWhile isWS).reverse

/-- Model of JS `s.trim()` on strings. -/
def strTrim (s : String) : String :=
  ⟨jsTrim s.data⟩

/-- The character-scanning loop of `parseCSVLine` (csvService.js lines
86-120): an explicit in-quotes flag, a doubled quote inside quotes emits one
literal quote, a comma outside quotes terminates the current field, every
emitted field is trimmed, and the final field is always emitted at end of
line. -/
def parseLineAux : List Char → Bool → List Char → List (List Char) → List (List Char)
  | [], _, current, acc => acc ++ [jsTrim current]
  | '"' :: '"' :: rest, true, current, acc =>
    parseLineAux rest true (current ++ ['"']) acc
  | '"' :: rest, inQuotes, current, acc =>
    parseLineAux rest (!inQuotes) current acc
  | c :: rest, inQuotes, current, acc =>
    if c = ',' && !inQuotes then
      parseLineAux rest inQuotes [] (acc ++ [jsTrim current])
    else
      parseLineAux rest inQuotes (current ++ [c]) acc

/-- `parseCSVLine` from csvService.js: tokenize one CSV line into trimmed
fields. -/
def parseCSVLine (line : String) : List String :=
  (parseLineAux line.data false [] []).map fun l => ⟨l⟩

/-- The splitter of `splitLines` (csvService.js line 80):
`content.split(/\r?\n/)`, accumulating the current line reversed. -/
def splitLinesAux : List Char → List Char → List (List Char)
  | [], cur => [cur.reverse]
  | '\r' :: '\n' :: rest, cur => cur.reverse :: splitLinesAux rest []
  | '\n' :: rest, cur => cur.reverse :: splitLinesAux rest []
  | c :: rest, cur => splitLinesAux rest (c :: cur)

/-- `splitLines` from csvService.js lines 79-81. -/
def splitLines (content : String) : List String :=
  (splitLinesAux content.data []).map fun l => ⟨l⟩

/-- JS values flowing through the converter: null, strings, numbers
(modelled as rationals), and plain objects modelled as insertion-ordered
association lists. -/
inductive Value : Type where
  | vNull : Value
  | vStr : String → Value
  | vNum : ℚ → Value
  | vObj : List (String × Value) → Value

/-- A parsed record: a JS object, i.e. ordered key-value fields. -/
abbrev Record := List (String × Value)

/-- The errors thrown by the pure part of the parse pipeline. -/
inductive ParseError : Type where
  | emptyFile : ParseError
  | missingHeaders : List String → ParseError
  | schemaMismatch : ℕ → ℕ → ParseError
deriving DecidableEq, Repr

/-- Split a character list at every occurrence of a separator character,
the list-level model of JS `String.prototype.split` with a one-character
separator. -/
def splitCharAux (sep : Char) : List Char → List Char → List (List Char)
  | [], cur => [cur.reverse]
  | c :: rest, cur =>
    if c = sep then cur.reverse :: splitCharAux sep rest []
    else splitCharAux sep rest (c :: cur)

/-- JS `s.split(sep)` for a one-character separator. -/
def jsSplit (s : String) (sep : Char) : List String :=
  (splitCharAux sep s.data []).map fun l => ⟨l⟩

/-- ASCII lower-casing, the model of JS `toLowerCase` on these headers. -/
def lowerStr (s : String) : String :=
  ⟨s.data.map Char.toLower⟩

/-- Whether `s` ends with `suffix`. -/
def strEndsWith (s suffix : String) : Bool :=
  suffix.data.reverse.isPrefixOf s.data.reverse

/-- The numeric-coercion trigger of `convertToJSON` (csvService.js line
149): `header === 'age' || /\.(age|id|count)$/i.test(header)`; the regex is
a case-insensitive literal-dot suffix match. -/
def isNumericHeader (h : String) : Bool :=
  h = "age" || strEndsWith (lowerStr h) ".age" || strEndsWith (lowerStr h) ".id"
    || strEndsWith (lowerStr h) ".count"

/-- Value of a list of decimal digits, `none` if empty or non-digit. -/
def digitsVal (l : List Char) : Option ℕ :=
  if l = [] || l.any (fun c => !c.isDigit) then none
  else some (l.foldl (fun n c => n * 10 + (c.toNat - 48)) 0)

/-- Model of the JS `Number(...)` coercion on an already-trimmed string,
restricted to decimal numerals (optional sign, integer part, optional
fractional part), the forms this pipeline's data can produce; exotic forms
(hex, exponents, Infinity) are treated as unparseable. `none` models NaN. -/
def jsNumber (s : String) : Option ℚ :=
  let p : ℚ × List Char :=
    match s.data with
    | '-' :: r => (-1, r)
    | '+' :: r => (1, r)
    | l => (1, l)
  match splitCharAux '.' p.2 [] with
  | [ip] => (digitsVal ip).map fun n => p.1 * n
  | [ip, fp] =>
    if ip = [] && fp = [] then none
    else
      match (if ip = [] then some 0 else digitsVal ip),
            (if fp = [] then some 0 else digitsVal fp) with
      | some i, some f => some (p.1 * ((i : ℚ) + (f : ℚ) / (10 ^ fp.length)))
      | _, _ => none
  | _ => none

/-- `parseNumber` from csvService.js lines 163-170: empty or blank value
becomes null, an unparseable value keeps the original string, otherwise the
trimmed value's numeric value. -/
def parseNumber (value : String) : Value :=
  if value = "" || strTrim value = "" then Value.vNull
  else
    match jsNumber (strTrim value) with
    | some q => Value.vNum q
    | none => Value.vStr value

/-- JS property assignment on an ordered object: overwrite in place if the
key exists, otherwise append at the end. -/
def setKey : List (String × Value) → String → Value → List (String × Value)
  | [], k, v => [(k, v)]
  | (k', v') :: rest, k, v =>
    if k' = k then (k, v) :: rest else (k', v') :: setKey rest k v

/-- Object field lookup (keys are unique in a JS object; the first binding
wins). -/
def lookupVal : List (String × Value) → String → Option Value
  | [], _ => none
  | (k', v) :: rest, k => if k' = k then some v else lookupVal rest k

/-- The walk of `setNestedProperty` (csvService.js lines 175-188): descend
through all but the last key, replacing a missing, non-object, or null
entry with a fresh empty object, then assign the final key. -/
def setNestedKeys : List (String × Value) → List String → Value → List (String × Value)
  | obj, [], _ => obj
  | obj, [k], v => setKey obj k v
  | obj, k :: k2 :: rest, v =>
    let sub : List (String × Value) :=
      match lookupVal obj k with
      | some (Value.vObj o) => o
      | _ => []
    setKey obj k (Value.vObj (setNestedKeys sub (k2 :: rest) v))

/-- `setNestedProperty` from csvService.js: split the dot-path and walk. -/
def setNestedProperty (obj : Record) (path : String) (value : Value) : Record :=
  setNestedKeys obj (jsSplit path '.') value

/-- One header/value pair as mapped inside the loop of `convertToJSON`
(csvService.js lines 144-155): numeric headers go through `parseNumber`,
all other headers keep the string value. -/
def coerceValue (header value : String) : Value :=
  if isNumericHeader header then parseNumber value else Value.vStr value

/-- The loop of `convertToJSON`: fold the header/value pairs into the
result object via `setNestedProperty`. -/
def buildRecord : List (String × String) → Record → Record
  | [], acc => acc
  | (h, v) :: rest, acc => buildRecord rest (setNestedProperty acc h (coerceValue h v))

/-- `convertToJSON` from csvService.js lines 137-158: length mismatch is a
schema error, otherwise build the nested record. -/
def convertToJSON (headers values : List String) : Except ParseError Record :=
  if headers.length ≠ values.length then
    Except.error (ParseError.schemaMismatch headers.length values.length)
  else
    Except.ok (buildRecord (headers.zip values) [])

/-- The required headers of `validateHeaders` (csvService.js line 126). -/
def requiredHeaders : List String := ["name.firstName", "name.lastName", "age"]

/-- The missing-header computation of `validateHeaders` (csvService.js
lines 125-132). -/
def missingRequired (headers : List String) : List String :=
  requiredHeaders.filter (fun h => !headers.contains h)

/-- The data-row loop of `parseCSVFile` (csvService.js lines 31-38): skip
blank lines, map the rest in order, abort on the first mapping error. -/
def mapRows (headers : List String) : List String → Except ParseError (List Record)
  | [] => Except.ok []
  | line :: rest =>
    if strTrim line = "" then mapRows headers rest
    else
      match convertToJSON headers (parseCSVLine line) with
      | Except.error e => Except.error e
      | Except.ok u =>
        match mapRows headers rest with
        | Except.error e => Except.error e
        | Except.ok us => Except.ok (u :: us)

/-- `parseCSVFile` from csvService.js lines 13-47, restricted to its pure
content-processing part (the filesystem checks of `validateFile` act before
the content exists and are outside the embedded state). -/
def parseCSVContent (content : String) : Except ParseError (List Record) :=
  if (splitLines content).length < 2 then Except.error ParseError.emptyFile
  else if missingRequired (parseCSVLine (splitLines content).headI) ≠ [] then
    Except.error (ParseError.missingHeaders
      (missingRequired (parseCSVLine (splitLines content).headI)))
  else mapRows (parseCSVLine (splitLines content).headI) ((splitLines content).drop 1)

/-- One escaped character of `JSON.stringify` string output. -/
def jsonEscapeChar (c : Char) : String :=
  if c = '"' then "\\\"" else if c = '\\' then "\\\\" else String.singleton c

/-- A `JSON.stringify` string literal. -/
def jsonQuote (s : String) : String :=
  "\"" ++ String.join (s.data.map jsonEscapeChar) ++ "\""

mutual

/-- Model of `JSON.stringify` on the JS values of this pipeline (number
formatting is abstracted by the rational's canonical representation, which
the claims never inspect). -/
def stringifyValue : Value → String
  | Value.vNull => "null"
  | Value.vStr s => jsonQuote s
  | Value.vNum q => toString q
  | Value.vObj fs => "\x7b" ++ stringifyFields fs ++ "\x7d"

/-- Comma-separated `"key":value` members of an object literal. -/
def stringifyFields : List (String × Value) → String
  | [] => ""
  | [(k, v)] => jsonQuote k ++ ":" ++ stringifyValue v
  | (k, v) :: kv :: rest =>
    jsonQuote k ++ ":" ++ stringifyValue v ++ "," ++ stringifyFields (kv :: rest)

end

/-- JS truthiness of the values of this pipeline (`NaN` never occurs:
`parseNumber` filters it out). -/
def jsTruthy : Value → Bool
  | Value.vNull => false
  | Value.vStr s => if s = "" then false else true
  | Value.vNum q => if q = 0 then false else true
  | Value.vObj _ => true

/-- JS template-literal stringification of a value. -/
def jsToStr : Value → String
  | Value.vStr s => s
  | Value.vNum q => toString q
  | Value.vNull => "null"
  | Value.vObj _ => "[object Object]"

/-- The optional-chain access `user.k1?.k2`: `none` models `undefined`. -/
def getField2 (user : Record) (k1 k2 : String) : Option Value :=
  match lookupVal user k1 with
  | some (Value.vObj o) => lookupVal o k2
  | _ => none

/-- The JS fallback `x || ''` applied to a possibly-undefined value. -/
def orEmptyStr : Option Value → Value
  | some v => if jsTruthy v then v else Value.vStr ""
  | none => Value.vStr ""

/-- The four-column row shape produced by `prepareUserData`; in JS both the
name interpolation and the `age` fallback are dynamically typed, so `age`
is carried as a `Value`. -/
structure PersistableUser where
  name : String
  age : Value
  address : Option String
  additionalInfo : Option String

/-- `prepareUserData` from the user service (src/unnamed/part_000 lines
62-89): name is first+last joined with one space and trimmed, `age` is
`user.age || 0`, `address` is the serialized address subtree when truthy,
`additional_info` serializes every other top-level key, or is null when no
such key exists. -/
def prepareUserData (user : Record) : PersistableUser :=
  let firstName := orEmptyStr (getField2 user "name" "firstName")
  let lastName := orEmptyStr (getField2 user "name" "lastName")
  let name := strTrim (jsToStr firstName ++ " " ++ jsToStr lastName)
  let age :=
    match lookupVal user "age" with
    | some v => if jsTruthy v then v else Value.vNum 0
    | none => Value.vNum 0
  let address :=
    match lookupVal user "address" with
    | some v => if jsTruthy v then some (stringifyValue v) else none
    | none => none
  let others := user.filter fun kv =>
    !(kv.1 == "name" || kv.1 == "age" || kv.1 == "address")
  let additionalInfo :=
    if others.length > 0 then some (stringifyValue (Value.vObj others)) else none
  ⟨name, age, address, additionalInfo⟩

/-- The database operations observable at the `db.query` boundary used by
`batchInsertUsers`. -/
inductive DBOp : Type where
  | opBegin : DBOp
  | opInsert : List PersistableUser → DBOp
  | opCommit : DBOp
  | opRollback : DBOp

/-- Whether a database operation is a chunked multi-row INSERT. -/
def DBOp.isInsert : DBOp → Bool
  | DBOp.opInsert _ => true
  | _ => false

/-- The persistence store: rows already committed, the open transaction's
uncommitted buffer, and the trace of issued operations. -/
structure DBState where
  committed : List PersistableUser
  txBuffer : List PersistableUser
  trace : List DBOp

/-- The chunking loop made structurally recursive on a fuel bounded by the
list length (each step consumes at least one element, so the fuel never
runs out when started at the length). -/
def chunksOfAux {α : Type} (bs : ℕ) : ℕ → List α → List (List α)
  | 0, _ => []
  | _, [] => []
  | fuel + 1, a :: l =>
    (a :: l).take (max bs 1) :: chunksOfAux bs fuel ((a :: l).drop (max bs 1))

/-- The chunking of the batch loop (`users.slice(i, i + batchSize)` with
`i += batchSize`); the configured chunk size is at least 1 because
`parseInt(process.env.BATCH_SIZE) || 1000` never yields 0. -/
def chunksOf {α : Type} (bs : ℕ) (l : List α) : List (List α) :=
  chunksOfAux bs l.length l

/-- `insertUserBatch` (src/unnamed/part_000 lines 38-57): project each
record of the chunk to its four columns, issue one multi-row INSERT inside
the open transaction, and report the inserted row count. -/
def insertUserBatch (batch : List Record) (db : DBState) : DBState × ℕ :=
  let rows := batch.map prepareUserData
  ({ db with txBuffer := db.txBuffer ++ rows
             trace := db.trace ++ [DBOp.opInsert rows] },
   rows.length)

/-- The chunk loop of `batchInsertUsers`: insert each chunk in order inside
the transaction, accumulating the count; `fail k` models the database
rejecting chunk `k`'s INSERT, which triggers the catch-block ROLLBACK; when
all chunks succeed the loop falls through to COMMIT. -/
def batchRun (fail : ℕ → Bool) : List (List Record) → ℕ → ℕ → DBState → DBState × Except Unit ℕ
  | [], _, count, db =>
    ({ db with committed := db.committed ++ db.txBuffer
               txBuffer := []
               trace := db.trace ++ [DBOp.opCommit] },
     Except.ok count)
  | c :: rest, k, count, db =>
    if fail k then
      ({ db with txBuffer := [], trace := db.trace ++ [DBOp.opRollback] },
       Except.error ())
    else
      let step := insertUserBatch c db
      batchRun fail rest (k + 1) (count + step.2) step.1

/-- `batchInsertUsers` (src/unnamed/part_000 lines 8-33): BEGIN, insert the
consecutive chunks of the input, COMMIT and return the total count, or
ROLLBACK on the first failing chunk. -/
def batchInsertUsers (fail : ℕ → Bool) (batchSize : ℕ) (users : List Record)
    (db : DBState) : DBState × Except Unit ℕ :=
  batchRun fail (chunksOf batchSize users) 0 0
    { db with txBuffer := [], trace := db.trace ++ [DBOp.opBegin] }

/-- The row shape returned by the aggregate SELECT of `getAgeStatistics`:
counts, and the nullable AVG/MIN/MAX aggregates (SQL NULL is `none`). -/
structure AgeStats where
  totalUsers : ℕ
  under20 : ℕ
  age20to40 : ℕ
  age40to60 : ℕ
  over60 : ℕ
  averageAge : Option ℚ
  minAge : Option ℤ
  maxAge : Option ℤ

/-- SQL MIN over a bag of integers: `NULL` on the empty bag. -/
def sqlMin : List ℤ → Option ℤ
  | [] => none
  | a :: rest => some (rest.foldl min a)

/-- SQL MAX over a bag of integers: `NULL` on the empty bag. -/
def sqlMax : List ℤ → Option ℤ
  | [] => none
  | a :: rest => some (rest.foldl max a)

/-- `getAgeStatistics` (src/unnamed/part_000 lines 143-160): the aggregate
query over the persisted `age` column, restricted by
`WHERE age IS NOT NULL AND age > 0`, with `COUNT(CASE ...)` buckets at 20,
40 and 60, and AVG/MIN/MAX over the filtered rows. -/
def getAgeStatistics (table : List ℤ) : AgeStats :=
  let f := table.filter fun a => decide (0 < a)
  { totalUsers := f.length
    under20 := (f.filter fun a => decide (a < 20)).length
    age20to40 := (f.filter fun a => decide (20 ≤ a) && decide (a < 40)).length
    age40to60 := (f.filter fun a => decide (40 ≤ a) && decide (a < 60)).length
    over60 := (f.filter fun a => decide (60 ≤ a)).length
    averageAge :=
      if f.length = 0 then none
      else some ((f.map fun a => (a : ℚ)).sum / f.length)
    minAge := sqlMin f
    maxAge := sqlMax f }

/-- One reported age group of `getAgeDistribution`. -/
structure AgeGroup where
  group : String
  count : ℕ
  percentage : ℤ

/-- The API response shape of `getAgeDistribution` (reportService.js lines
57-107); `averageAge` models `parseFloat(...).toFixed(1)` as the rational
rounded to one decimal place. -/
structure AgeDistribution where
  totalUsers : ℕ
  ageGroups : List AgeGroup
  averageAge : ℚ
  ageRangeMin : ℤ
  ageRangeMax : ℤ

/-- `Math.round((count / total) * 100)` (JS rounds half toward positive
infinity, as does Mathlib's `round`). -/
def pct (count total : ℕ) : ℤ :=
  round (((count : ℚ) / total) * 100)

/-- `toFixed(1)` on a non-negative average, as a rational with one decimal
place. -/
def round1 (q : ℚ) : ℚ :=
  (round (q * 10) : ℚ) / 10

/-- `getAgeDistribution` (reportService.js lines 57-107): the empty-table
sentinel result, or the four fixed groups with rounded percentages and the
parsed min/max range. -/
def getAgeDistribution (table : List ℤ) : AgeDistribution :=
  let stats := getAgeStatistics table
  if stats.totalUsers = 0 then
    { totalUsers := 0, ageGroups := [], averageAge := 0
      ageRangeMin := 0, ageRangeMax := 0 }
  else
    { totalUsers := stats.totalUsers
      ageGroups :=
        [ ⟨"< 20", stats.under20, pct stats.under20 stats.totalUsers⟩,
          ⟨"20 to 40", stats.age20to40, pct stats.age20to40 stats.totalUsers⟩,
          ⟨"40 to 60", stats.age40to60, pct stats.age40to60 stats.totalUsers⟩,
          ⟨"> 60", stats.over60, pct stats.over60 stats.totalUsers⟩ ]
      averageAge := round1 ((stats.averageAge).getD 0)
      ageRangeMin := (stats.minAge).getD 0
      ageRangeMax := (stats.maxAge).getD 0 }

theorem parseLineAux_length_lt (l : List Char) (b : Bool) (cur : List Char)
    (acc : List (List Char)) : acc.length < (parseLineAux l b cur acc).length := by
  induction l, b, cur, acc using parseLineAux.induct with
  | case1 b cur acc => simp [parseLineAux]
  | case2 rest cur acc ih => simpa [parseLineAux] using ih
  | case3 rest b cur acc h ih => simp_all [parseLineAux]
  | case4 c rest b cur acc h1 h2 h3 ih =>
    have heq : parseLineAux (c :: rest) b cur acc
        = parseLineAux rest b [] (acc ++ [jsTrim cur]) := by
      simp_all [parseLineAux]
    rw [heq]
    have hle : acc.length ≤ (acc ++ [jsTrim cur]).length := by simp
    omega
  | case5 c rest b cur acc h1 h2 h3 ih =>
    have heq : parseLineAux (c :: rest) b cur acc
        = parseLineAux rest b (cur ++ [c]) acc := by
      simp_all [parseLineAux]
    rw [heq]
    exact ih

/-- C10: the line tokenizer is total (it is a terminating Lean function)
and never yields an empty record: every input yields at least one field,
and the empty string yields exactly one empty field. -/
theorem C10_tokenizer_total_nonempty (line : String) :
    1 ≤ (parseCSVLine line).length ∧ parseCSVLine "" = [""] := by
  constructor
  · have h := parseLineAux_length_lt line.data false [] []
    simpa [parseCSVLine] using h
  · rfl

theorem setKey_frame (obj : List (String × Value)) (k k' : String) (v : Value)
    (h : k' ≠ k) : lookupVal (setKey obj k v) k' = lookupVal obj k' := by
  induction obj with
  | nil =>
    simp only [setKey, lookupVal]
    rw [if_neg (Ne.symm h)]
  | cons kv rest ih =>
    obtain ⟨k0, v0⟩ := kv
    by_cases hk0 : k0 = k
    · subst hk0
      simp only [setKey, if_pos rfl, lookupVal]
      rw [if_neg (fun hh => h hh.symm), if_neg (fun hh => h hh.symm)]
    · simp only [setKey, if_neg hk0, lookupVal]
      by_cases hk0' : k0 = k'
      · simp [hk0']
      · simp [hk0', ih]

/-- C9: frame property of dot-path assignment: `setNestedProperty` leaves
every top-level key other than the first segment of the path bound to
exactly the value it had before the call. -/
theorem C9_setNestedProperty_frame (obj : Record) (path : String) (value : Value)
    (k : String) (h : k ≠ (jsSplit path '.').headI) :
    lookupVal (setNestedProperty obj path value) k = lookupVal obj k := by
  unfold setNestedProperty
  rcases hs : jsSplit path '.' with _ | ⟨k0, _ | ⟨k1, rest⟩⟩
  · rfl
  · rw [hs] at h
    simp only [List.headI] at h
    exact setKey_frame obj k0 k _ h
  · rw [hs] at h
    simp only [List.headI] at h
    exact setKey_frame obj k0 k _ h

/-- Witness for C9 at a concrete object and path. -/
theorem C9_setNestedProperty_frame_witness :
    "b" ≠ (jsSplit "a.c" '.').headI ∧
      lookupVal (setNestedProperty [("a", Value.vNum 1), ("b", Value.vNum 2)]
        "a.c" (Value.vNum 3)) "b" =
      lookupVal [("a", Value.vNum 1), ("b", Value.vNum 2)] "b" :=
  ⟨by decide,
   C9_setNestedProperty_frame [("a", Value.vNum 1), ("b", Value.vNum 2)]
     "a.c" (Value.vNum 3) "b" (by decide)⟩

theorem convertToJSON_error_shape (headers values : List String) (e : ParseError)
    (h : convertToJSON headers values = Except.error e) :
    e = ParseError.schemaMismatch headers.length values.length := by
  unfold convertToJSON at h
  split at h
  · exact (Except.error.injEq _ _).mp h |>.symm
  · exact Except.noConfusion h

theorem mapRows_error_shape (headers : List String) (rows : List String)
    (e : ParseError) (h : mapRows headers rows = Except.error e) :
    ∃ a b, e = ParseError.schemaMismatch a b := by
  induction rows with
  | nil => simp [mapRows] at h
  | cons line rest ih =>
    by_cases hl : strTrim line = ""
    · rw [show mapRows headers (line :: rest) = mapRows headers rest by
        simp [mapRows, hl]] at h
      exact ih h
    · simp only [mapRows, if_neg hl] at h
      cases hcv : convertToJSON headers (parseCSVLine line) with
      | error e' =>
        rw [hcv] at h
        have : e' = e := by injection h
        exact ⟨headers.length, (parseCSVLine line).length,
          this ▸ convertToJSON_error_shape _ _ _ hcv⟩
      | ok u =>
        rw [hcv] at h
        cases hmr : mapRows headers rest with
        | error e2 =>
          rw [hmr] at h
          have : e2 = e := by injection h
          exact ih (this ▸ hmr)
        | ok us => rw [hmr] at h; exact Except.noConfusion h

/-- C5: header validation runs once per parse, before any data row: when
the header line misses a required header, the parse fails with an error
naming exactly the missing headers, and no record list is produced. -/
theorem C5_missing_headers_abort (content : String)
    (h2 : 2 ≤ (splitLines content).length)
    (hm : missingRequired (parseCSVLine (splitLines content).headI) ≠ []) :
    parseCSVContent content =
      Except.error (ParseError.missingHeaders
        (missingRequired (parseCSVLine (splitLines content).headI))) ∧
    ∀ recs : List Record, parseCSVContent content ≠ Except.ok recs := by
  have hlt : ¬ (splitLines content).length < 2 := by omega
  have h1 : parseCSVContent content =
      Except.error (ParseError.missingHeaders
        (missingRequired (parseCSVLine (splitLines content).headI))) := by
    unfold parseCSVContent
    rw [if_neg hlt, if_pos hm]
  exact ⟨h1, fun recs hc => Except.noConfusion (h1 ▸ hc)⟩

/-- Witness for C5 on a header line missing all three required headers. -/
theorem C5_missing_headers_abort_witness :
    2 ≤ (splitLines "a,b\n1,2").length ∧
    missingRequired (parseCSVLine (splitLines "a,b\n1,2").headI) ≠ [] ∧
    parseCSVContent "a,b\n1,2" =
      Except.error (ParseError.missingHeaders
        (missingRequired (parseCSVLine (splitLines "a,b\n1,2").headI))) :=
  ⟨by decide, by decide,
   (C5_missing_headers_abort "a,b\n1,2" (by decide) (by decide)).1⟩

theorem mapRows_mismatch (headers : List String) (rows : List String)
    (h : ∃ line ∈ rows, strTrim line ≠ "" ∧
      (parseCSVLine line).length ≠ headers.length) :
    ∃ a b, mapRows headers rows = Except.error (ParseError.schemaMismatch a b) := by
  induction rows with
  | nil => simp at h
  | cons line rest ih =>
    obtain ⟨w, hw, hne, hlen⟩ := h
    rcases List.mem_cons.mp hw with rfl | hw'
    · have hcv : convertToJSON headers (parseCSVLine w)
          = Except.error (ParseError.schemaMismatch headers.length
              (parseCSVLine w).length) := by
        unfold convertToJSON
        rw [if_pos (Ne.symm hlen)]
      refine ⟨headers.length, (parseCSVLine w).length, ?_⟩
      simp only [mapRows, if_neg hne, hcv]
    · by_cases hl : strTrim line = ""
      · obtain ⟨a, b, hmr⟩ := ih ⟨w, hw', hne, hlen⟩
        exact ⟨a, b, by simp only [mapRows, if_pos hl, hmr]⟩
      · cases hcv : convertToJSON headers (parseCSVLine line) with
        | error e =>
          have hab := convertToJSON_error_shape _ _ _ hcv
          exact ⟨headers.length, (parseCSVLine line).length,
            by simp only [mapRows, if_neg hl, hcv, hab]⟩
        | ok u =>
          obtain ⟨a, b, hmr⟩ := ih ⟨w, hw', hne, hlen⟩
          exact ⟨a, b, by simp only [mapRows, if_neg hl, hcv, hmr]⟩

/-- C4: the mapper fails with a schema-mismatch error when header and value
counts differ, and any such per-row failure aborts the entire parse with
that error, never returning a partial record list. -/
theorem C4_length_mismatch_aborts :
    (∀ headers values : List String, headers.length ≠ values.length →
      convertToJSON headers values =
        Except.error (ParseError.schemaMismatch headers.length values.length)) ∧
    (∀ content : String, 2 ≤ (splitLines content).length →
      missingRequired (parseCSVLine (splitLines content).headI) = [] →
      (∃ line ∈ (splitLines content).drop 1, strTrim line ≠ "" ∧
        (parseCSVLine line).length ≠
          (parseCSVLine (splitLines content).headI).length) →
      (∃ a b, parseCSVContent content =
        Except.error (ParseError.schemaMismatch a b)) ∧
      ∀ recs : List Record, parseCSVContent content ≠ Except.ok recs) := by
  constructor
  · intro headers values hne
    unfold convertToJSON
    rw [if_pos hne]
  · intro content h2 hok hex
    have hlt : ¬ (splitLines content).length < 2 := by omega
    obtain ⟨a, b, hmr⟩ := mapRows_mismatch _ _ hex
    have h1 : parseCSVContent content =
        Except.error (ParseError.schemaMismatch a b) := by
      unfold parseCSVContent
      rw [if_neg hlt, if_neg (fun hc => hc hok), hmr]
    exact ⟨⟨a, b, h1⟩, fun recs hc => Except.noConfusion (h1 ▸ hc)⟩

/-- Witness for C4: a two-field data row under a three-header line. -/
theorem C4_length_mismatch_aborts_witness :
    (([("h", "x")] : List (String × String)).length ≠ ([] : List String).length →
      True) ∧
    (2 ≤ (splitLines "name.firstName,name.lastName,age\nJane,Doe").length ∧
     missingRequired (parseCSVLine
       (splitLines "name.firstName,name.lastName,age\nJane,Doe").headI) = [] ∧
     ∃ a b, parseCSVContent "name.firstName,name.lastName,age\nJane,Doe" =
       Except.error (ParseError.schemaMismatch a b)) :=
  ⟨fun _ => trivial,
   by decide, by decide,
   (C4_length_mismatch_aborts.2 "name.firstName,name.lastName,age\nJane,Doe"
     (by decide) (by decide)
     (by refine ⟨"Jane,Doe", by decide, by decide, by decide⟩)).1⟩

/-- C8 counterexample: a file whose non-trivial content is only a header
line (followed by a trailing newline) has fewer than 2 non-trivial lines,
yet the parse does not fail with the empty-file error — it succeeds with an
empty record list, because the code counts raw split lines, not non-trivial
ones. -/
theorem C8_counterexample_header_only_accepted :
    ((splitLines "name.firstName,name.lastName,age\n").filter
      (fun l => !(strTrim l == ""))).length < 2 ∧
    parseCSVContent "name.firstName,name.lastName,age\n" = Except.ok [] := by
  constructor
  · decide
  · rfl

/-- C8 (amended): the parse fails with the empty-file error exactly when
splitting the content on line terminators yields fewer than 2 raw lines
(blank lines count), i.e. exactly when the content contains no line
terminator at all. -/
theorem C8_empty_error_iff_raw_line_count (content : String) :
    parseCSVContent content = Except.error ParseError.emptyFile ↔
      (splitLines content).length < 2 := by
  constructor
  · intro h
    by_contra hn
    unfold parseCSVContent at h
    rw [if_neg hn] at h
    split at h
    · exact ParseError.noConfusion ((Except.error.injEq _ _).mp h)
    · obtain ⟨a, b, hab⟩ := mapRows_error_shape _ _ _ h
      exact ParseError.noConfusion hab
  · intro h
    unfold parseCSVContent
    rw [if_pos h]

/-- Witness for C8 instantiated at a content with no newline. -/
theorem C8_empty_error_iff_raw_line_count_witness :
    (parseCSVContent "abc" = Except.error ParseError.emptyFile ↔
      (splitLines "abc").length < 2) ∧
    parseCSVContent "abc" = Except.error ParseError.emptyFile :=
  ⟨C8_empty_error_iff_raw_line_count "abc",
   (C8_empty_error_iff_raw_line_count "abc").mpr (by decide)⟩

/-- Read a record at a dot-path's key list, descending through nested
objects. -/
def getPath : Record → List String → Option Value
  | _, [] => none
  | obj, [k] => lookupVal obj k
  | obj, k :: k2 :: rest =>
    match lookupVal obj k with
    | some (Value.vObj o) => getPath o (k2 :: rest)
    | _ => none

theorem setKey_get (obj : List (String × Value)) (k : String) (v : Value) :
    lookupVal (setKey obj k v) k = some v := by
  induction obj with
  | nil => simp [setKey, lookupVal]
  | cons kv rest ih =>
    obtain ⟨k0, v0⟩ := kv
    by_cases hk0 : k0 = k
    · simp [setKey, hk0, lookupVal]
    · simp [setKey, hk0, lookupVal, ih]

theorem splitCharAux_ne_nil (sep : Char) (l cur : List Char) :
    splitCharAux sep l cur ≠ [] := by
  induction l generalizing cur with
  | nil => exact fun hc => List.noConfusion hc
  | cons c rest ih =>
    by_cases hc : c = sep
    · simp only [splitCharAux, if_pos hc]
      exact fun hc => List.noConfusion hc
    · simp only [splitCharAux, if_neg hc]
      exact ih _

theorem jsSplit_ne_nil (s : String) (sep : Char) : jsSplit s sep ≠ [] := by
  unfold jsSplit
  intro hc
  exact splitCharAux_ne_nil sep s.data [] (List.map_eq_nil_iff.mp hc)

theorem getPath_setNestedKeys (keys : List String) (obj : Record) (v : Value)
    (h : keys ≠ []) : getPath (setNestedKeys obj keys v) keys = some v := by
  induction keys generalizing obj with
  | nil => exact absurd rfl h
  | cons k rest ih =>
    cases rest with
    | nil => simp [setNestedKeys, getPath, setKey_get]
    | cons k2 rest2 =>
      simp only [setNestedKeys, getPath]
      rw [setKey_get]
      exact ih _ (List.cons_ne_nil k2 rest2)

/-- C3: in the mapping of a (header, value) pair, numeric coercion is
applied exactly when the header is `age` or ends case-insensitively in
`.age`, `.id` or `.count` (the `isNumericHeader` test): the record then
binds the header's dot-path to `parseNumber value`, which is null when the
trimmed value is empty, the parsed number when parsing succeeds, and the
original unchanged string when parsing fails; a non-matching header binds
the path to the string value as-is. -/
theorem C3_numeric_coercion (h v : String) :
    (∃ r, convertToJSON [h] [v] = Except.ok r ∧
      getPath r (jsSplit h '.') =
        some (if isNumericHeader h then parseNumber v else Value.vStr v)) ∧
    (isNumericHeader h = true → strTrim v = "" → parseNumber v = Value.vNull) ∧
    (isNumericHeader h = true → strTrim v ≠ "" →
      ∀ q, jsNumber (strTrim v) = some q → parseNumber v = Value.vNum q) ∧
    (isNumericHeader h = true → strTrim v ≠ "" →
      jsNumber (strTrim v) = none → parseNumber v = Value.vStr v) ∧
    (isNumericHeader h = false → coerceValue h v = Value.vStr v) := by
  refine ⟨?_, ?_, ?_, ?_, ?_⟩
  · refine ⟨setNestedProperty [] h (coerceValue h v), rfl, ?_⟩
    unfold setNestedProperty
    rw [getPath_setNestedKeys (jsSplit h '.') [] _ (jsSplit_ne_nil h '.')]
    rfl
  · intro _ hts
    simp [parseNumber, hts]
  · intro _ hts q hq
    have hv : ¬(v = "") := fun hveq => hts (by rw [hveq]; rfl)
    simp [parseNumber, hts, hv, hq]
  · intro _ hts hq
    have hv : ¬(v = "") := fun hveq => hts (by rw [hveq]; rfl)
    simp [parseNumber, hts, hv, hq]
  · intro hnum
    unfold coerceValue
    rw [hnum]
    exact if_neg (by simp)

/-- Witness for C3 at the numeric header `age` and unparseable value. -/
theorem C3_numeric_coercion_witness :
    isNumericHeader "age" = true ∧ strTrim "abc" ≠ "" ∧
    jsNumber (strTrim "abc") = none ∧ parseNumber "abc" = Value.vStr "abc" :=
  ⟨by decide, by decide, by decide,
   (C3_numeric_coercion "age" "abc").2.2.2.1 (by decide) (by decide) (by decide)⟩

/-- Double every double quote, the escaping of embedded quotes described by
the round-trip claim. -/
def escQ : List Char → List Char
  | [] => []
  | c :: rest => (if c = '"' then ['"', '"'] else [c]) ++ escQ rest

/-- The claim's CSV escaping of a field value: wrap in double quotes and
double every embedded quote. -/
def csvEscape (s : String) : String :=
  ⟨'"' :: (escQ s.data ++ ['"'])⟩

/-- Whether a field value contains a comma or a double quote. -/
def hasCommaOrQuote (s : String) : Bool :=
  s.data.any fun c => c = ',' || c = '"'

theorem parseLineAux_escQ (v : List Char) :
    ∀ (cur : List Char) (acc : List (List Char)),
      parseLineAux (escQ v ++ ['"']) true cur acc = acc ++ [jsTrim (cur ++ v)] := by
  induction v with
  | nil =>
    intro cur acc
    simp [escQ, parseLineAux]
  | cons c rest ih =>
    intro cur acc
    by_cases hc : c = '"'
    · subst hc
      have hesc : escQ ('"' :: rest) ++ ['"'] = '"' :: '"' :: (escQ rest ++ ['"']) := by
        simp [escQ]
      rw [hesc]
      have heq : parseLineAux ('"' :: '"' :: (escQ rest ++ ['"'])) true cur acc
          = parseLineAux (escQ rest ++ ['"']) true (cur ++ ['"']) acc := by
        simp [parseLineAux]
      rw [heq, ih]
      simp
    · have hesc : escQ (c :: rest) ++ ['"'] = c :: (escQ rest ++ ['"']) := by
        simp [escQ, hc]
      rw [hesc]
      have heq : parseLineAux (c :: (escQ rest ++ ['"'])) true cur acc
          = parseLineAux (escQ rest ++ ['"']) true (cur ++ [c]) acc := by
        simp [parseLineAux, hc]
      rw [heq, ih]
      simp

/-- C7 counterexample: the round-trip claim as stated fails for a value
with a comma and trailing whitespace, because the tokenizer trims every
emitted field: escaping then tokenizing `"a, "` yields `"a,"`. -/
theorem C7_counterexample_trailing_space :
    hasCommaOrQuote "a, " = true ∧ parseCSVLine (csvEscape "a, ") ≠ ["a, "] := by
  constructor
  · decide
  · decide

/-- C7 (amended): for every field value with no leading or trailing
whitespace (the tokenizer trims each field), CSV-escaping the value and
tokenizing the result reproduces the original value exactly; in
particular, the line `"Doe, Jr.","25"` tokenizes to the two fields
`Doe, Jr.` and `25`. -/
theorem C7_escape_tokenize_roundtrip (v : String) (hv : strTrim v = v) :
    parseCSVLine (csvEscape v) = [v] ∧
    parseCSVLine "\"Doe, Jr.\",\"25\"" = ["Doe, Jr.", "25"] := by
  constructor
  · unfold parseCSVLine csvEscape
    have h1 : parseLineAux ('"' :: (escQ v.data ++ ['"'])) false [] []
        = parseLineAux (escQ v.data ++ ['"']) true [] [] := by
      simp [parseLineAux]
    rw [show (String.mk ('"' :: (escQ v.data ++ ['"']))).data
        = '"' :: (escQ v.data ++ ['"']) from rfl]
    rw [h1, parseLineAux_escQ]
    simp only [List.nil_append, List.map]
    show [strTrim v] = [v]
    rw [hv]
  · rfl

/-- Witness for C7 at the value of the claim's example. -/
theorem C7_escape_tokenize_roundtrip_witness :
    strTrim "Doe, Jr." = "Doe, Jr." ∧
    parseCSVLine (csvEscape "Doe, Jr.") = ["Doe, Jr."] :=
  ⟨by decide, (C7_escape_tokenize_roundtrip "Doe, Jr." (by decide)).1⟩

/-- C6 counterexample: an unparseable age does not default to 0: the
coercion step keeps the original string (here `"abc"`), which is truthy, so
`user.age || 0` passes it through unchanged into the persisted projection
instead of the claimed integer 0. -/
theorem C6_counterexample_unparseable_age :
    parseNumber "abc" = Value.vStr "abc" ∧
    (prepareUserData [("age", Value.vStr "abc")]).age = Value.vStr "abc" ∧
    Value.vStr "abc" ≠ Value.vNum 0 :=
  ⟨rfl, rfl, fun hc => Value.noConfusion hc⟩

/-- C6 (amended): the persistence-time projection produces exactly four
columns: `name` is the first and last name joined with a single space and
trimmed; `age` is the record's age value passed through unchanged whenever
that value is truthy (in particular an unparseable age kept as a string
stays a string) and 0 exactly when the age is missing, null, zero or the
empty string; `address` is the serialization of the address subtree, or
absent when there is none; `additional_info` is the serialization of every
top-level key other than name, age and address, or absent when no such key
exists. -/
theorem C6_prepare_user_projection (user : Record) :
    (∀ fn ln : String,
      getField2 user "name" "firstName" = some (Value.vStr fn) → fn ≠ "" →
      getField2 user "name" "lastName" = some (Value.vStr ln) → ln ≠ "" →
      (prepareUserData user).name = strTrim (fn ++ " " ++ ln)) ∧
    (∀ w, lookupVal user "age" = some w →
      (prepareUserData user).age = if jsTruthy w then w else Value.vNum 0) ∧
    (lookupVal user "age" = none → (prepareUserData user).age = Value.vNum 0) ∧
    (lookupVal user "address" = none → (prepareUserData user).address = none) ∧
    (∀ o, lookupVal user "address" = some (Value.vObj o) →
      (prepareUserData user).address = some (stringifyValue (Value.vObj o))) ∧
    (user.filter (fun kv => !(kv.1 == "name" || kv.1 == "age" || kv.1 == "address")) = [] →
      (prepareUserData user).additionalInfo = none) ∧
    (user.filter (fun kv => !(kv.1 == "name" || kv.1 == "age" || kv.1 == "address")) ≠ [] →
      (prepareUserData user).additionalInfo =
        some (stringifyValue (Value.vObj
          (user.filter (fun kv => !(kv.1 == "name" || kv.1 == "age" || kv.1 == "address")))))) := by
  refine ⟨?_, ?_, ?_, ?_, ?_, ?_, ?_⟩
  · intro fn ln hfn hfnne hln hlnne
    simp only [prepareUserData, hfn, hln, orEmptyStr, jsTruthy]
    simp [hfnne, hlnne, jsToStr]
  · intro w hw
    simp only [prepareUserData, hw]
  · intro hw
    simp only [prepareUserData, hw]
  · intro ha
    simp only [prepareUserData, ha]
  · intro o ha
    simp only [prepareUserData, ha, jsTruthy, if_true]
  · intro ho
    simp only [prepareUserData, ho, List.length_nil, gt_iff_lt, lt_self_iff_false,
      if_false]
  · intro ho
    simp only [prepareUserData]
    rw [if_pos (List.length_pos.mpr ho)]

/-- Witness for C6 on a record with both names and a truthy numeric age. -/
theorem C6_prepare_user_projection_witness :
    getField2 [("name", Value.vObj [("firstName", Value.vStr "Jane"),
        ("lastName", Value.vStr "Doe")]), ("age", Value.vNum 30)]
      "name" "firstName" = some (Value.vStr "Jane") ∧
    ("Jane" : String) ≠ "" ∧
    (prepareUserData [("name", Value.vObj [("firstName", Value.vStr "Jane"),
        ("lastName", Value.vStr "Doe")]), ("age", Value.vNum 30)]).name =
      strTrim ("Jane" ++ " " ++ "Doe") :=
  ⟨rfl, by decide,
   (C6_prepare_user_projection [("name", Value.vObj [("firstName", Value.vStr "Jane"),
      ("lastName", Value.vStr "Doe")]), ("age", Value.vNum 30)]).1
     "Jane" "Doe" rfl (by decide) rfl (by decide)⟩

theorem foldl_min_le_init (l : List ℤ) : ∀ a : ℤ, l.foldl min a ≤ a := by
  induction l with
  | nil => intro a; simp
  | cons b t ih =>
    intro a
    calc t.foldl min (min a b) ≤ min a b := ih (min a b)
    _ ≤ a := min_le_left a b

theorem foldl_min_mem (l : List ℤ) : ∀ a : ℤ, l.foldl min a = a ∨ l.foldl min a ∈ l := by
  induction l with
  | nil => intro a; left; rfl
  | cons b t ih =>
    intro a
    rcases ih (min a b) with h | h
    · rcases min_choice a b with hm | hm
      · left; rw [List.foldl_cons, h, hm]
      · right; rw [List.foldl_cons, h, hm]; exact List.mem_cons_self b t
    · right
      exact List.mem_cons_of_mem b h

theorem foldl_min_le_mem (l : List ℤ) : ∀ (a x : ℤ), x ∈ l → l.foldl min a ≤ x := by
  induction l with
  | nil => intro a x hx; simp at hx
  | cons b t ih =>
    intro a x hx
    rcases List.mem_cons.mp hx with rfl | hx'
    · calc t.foldl min (min a x) ≤ min a x := foldl_min_le_init t _
      _ ≤ x := min_le_right a x
    · exact ih (min a b) x hx'

theorem foldl_max_ge_init (l : List ℤ) : ∀ a : ℤ, a ≤ l.foldl max a := by
  induction l with
  | nil => intro a; simp
  | cons b t ih =>
    intro a
    calc a ≤ max a b := le_max_left a b
    _ ≤ t.foldl max (max a b) := ih (max a b)

theorem foldl_max_mem (l : List ℤ) : ∀ a : ℤ, l.foldl max a = a ∨ l.foldl max a ∈ l := by
  induction l with
  | nil => intro a; left; rfl
  | cons b t ih =>
    intro a
    rcases ih (max a b) with h | h
    · rcases max_choice a b with hm | hm
      · left; rw [List.foldl_cons, h, hm]
      · right; rw [List.foldl_cons, h, hm]; exact List.mem_cons_self b t
    · right
      exact List.mem_cons_of_mem b h

theorem foldl_max_ge_mem (l : List ℤ) : ∀ (a x : ℤ), x ∈ l → x ≤ l.foldl max a := by
  induction l with
  | nil => intro a x hx; simp at hx
  | cons b t ih =>
    intro a x hx
    rcases List.mem_cons.mp hx with rfl | hx'
    · calc x ≤ max a x := le_max_right a x
      _ ≤ t.foldl max (max a x) := foldl_max_ge_init t _
    · exact ih (max a b) x hx'

theorem sqlMin_spec (l : List ℤ) (m : ℤ) (h : sqlMin l = some m) :
    m ∈ l ∧ ∀ x ∈ l, m ≤ x := by
  cases l with
  | nil => exact Option.noConfusion h
  | cons a t =>
    obtain rfl : t.foldl min a = m := by injection h
    constructor
    · rcases foldl_min_mem t a with he | he
      · rw [he]; exact List.mem_cons_self a t
      · exact List.mem_cons_of_mem a he
    · intro x hx
      rcases List.mem_cons.mp hx with rfl | hx'
      · exact foldl_min_le_init t x
      · exact foldl_min_le_mem t a x hx'

theorem sqlMax_spec (l : List ℤ) (m : ℤ) (h : sqlMax l = some m) :
    m ∈ l ∧ ∀ x ∈ l, x ≤ m := by
  cases l with
  | nil => exact Option.noConfusion h
  | cons a t =>
    obtain rfl : t.foldl max a = m := by injection h
    constructor
    · rcases foldl_max_mem t a with he | he
      · rw [he]; exact List.mem_cons_self a t
      · exact List.mem_cons_of_mem a he
    · intro x hx
      rcases List.mem_cons.mp hx with rfl | hx'
      · exact foldl_max_ge_init t x
      · exact foldl_max_ge_mem t a x hx'

theorem bucket_partition (l : List ℤ) :
    (l.filter fun a => decide (a < 20)).length
      + (l.filter fun a => decide (20 ≤ a) && decide (a < 40)).length
      + (l.filter fun a => decide (40 ≤ a) && decide (a < 60)).length
      + (l.filter fun a => decide (60 ≤ a)).length = l.length := by
  induction l with
  | nil => rfl
  | cons a t ih =>
    simp only [List.filter_cons, List.length_cons]
    by_cases h1 : a < 20
    · have h2 : ¬(20 ≤ a) := by omega
      have h3 : ¬(40 ≤ a) := by omega
      have h4 : ¬(60 ≤ a) := by omega
      simp [h1, h2, h3, h4]
      omega
    · by_cases hb : a < 40
      · have h2 : (20 : ℤ) ≤ a := by omega
        have h3 : ¬(40 ≤ a) := by omega
        have h4 : ¬(60 ≤ a) := by omega
        simp [h1, h2, h3, h4, hb]
        omega
      · by_cases hc : a < 60
        · have h2 : (40 : ℤ) ≤ a := by omega
          have h4 : ¬(60 ≤ a) := by omega
          simp [h1, h2, h4, hb, hc]
          omega
        · have h2 : (60 : ℤ) ≤ a := by omega
          simp [h1, h2, hb, hc]
          omega

theorem filter_comm_and (l : List ℤ) (p q : ℤ → Bool) :
    l.filter (fun a => p a && q a) = l.filter (fun a => q a && p a) := by
  apply List.filter_congr
  intro a _
  exact Bool.and_comm _ _

/-- C2: the age report restricts to rows with positive age and returns the
total count, the four non-overlapping exhaustive bucket counts over
`[0,20)`, `[20,40)`, `[40,60)`, `[60,inf)`, the mean, the minimum and the
maximum; on an empty filtered set it returns the zero-sentinel result
without failing or dividing by zero; on ages 10, 25, 45, 70 every bucket
counts 1, the average is 37.5, the minimum 10 and the maximum 70. -/
theorem C2_age_statistics_report (table : List ℤ) :
    ((getAgeStatistics table).totalUsers
      = (table.filter fun a => decide (0 < a)).length) ∧
    ((getAgeStatistics table).under20
      = (table.filter fun a => decide (a < 20) && decide (0 < a)).length) ∧
    ((getAgeStatistics table).age20to40
      = (table.filter fun a =>
          (decide (20 ≤ a) && decide (a < 40)) && decide (0 < a)).length) ∧
    ((getAgeStatistics table).age40to60
      = (table.filter fun a =>
          (decide (40 ≤ a) && decide (a < 60)) && decide (0 < a)).length) ∧
    ((getAgeStatistics table).over60
      = (table.filter fun a => decide (60 ≤ a) && decide (0 < a)).length) ∧
    ((getAgeStatistics table).under20 + (getAgeStatistics table).age20to40
      + (getAgeStatistics table).age40to60 + (getAgeStatistics table).over60
      = (getAgeStatistics table).totalUsers) ∧
    (∀ q, (getAgeStatistics table).averageAge = some q →
      q * (getAgeStatistics table).totalUsers
        = ((table.filter fun a => decide (0 < a)).map fun a => (a : ℚ)).sum) ∧
    ((getAgeStatistics table).averageAge = none ↔
      (getAgeStatistics table).totalUsers = 0) ∧
    (∀ m, (getAgeStatistics table).minAge = some m →
      m ∈ table.filter (fun a => decide (0 < a)) ∧
        ∀ x ∈ table.filter (fun a => decide (0 < a)), m ≤ x) ∧
    (∀ m, (getAgeStatistics table).maxAge = some m →
      m ∈ table.filter (fun a => decide (0 < a)) ∧
        ∀ x ∈ table.filter (fun a => decide (0 < a)), x ≤ m) ∧
    ((getAgeStatistics table).totalUsers = 0 →
      (getAgeStatistics table).under20 = 0 ∧
      (getAgeStatistics table).age20to40 = 0 ∧
      (getAgeStatistics table).age40to60 = 0 ∧
      (getAgeStatistics table).over60 = 0 ∧
      getAgeDistribution table = AgeDistribution.mk 0 [] 0 0 0) ∧
    ((getAgeStatistics table).totalUsers ≠ 0 →
      (getAgeDistribution table).totalUsers = (getAgeStatistics table).totalUsers ∧
      (getAgeDistribution table).ageGroups.map AgeGroup.count
        = [(getAgeStatistics table).under20, (getAgeStatistics table).age20to40,
           (getAgeStatistics table).age40to60, (getAgeStatistics table).over60]) ∧
    ((getAgeStatistics [10, 25, 45, 70]).totalUsers = 4 ∧
     (getAgeStatistics [10, 25, 45, 70]).under20 = 1 ∧
     (getAgeStatistics [10, 25, 45, 70]).age20to40 = 1 ∧
     (getAgeStatistics [10, 25, 45, 70]).age40to60 = 1 ∧
     (getAgeStatistics [10, 25, 45, 70]).over60 = 1 ∧
     (getAgeStatistics [10, 25, 45, 70]).averageAge = some (75 / 2) ∧
     (getAgeStatistics [10, 25, 45, 70]).minAge = some 10 ∧
     (getAgeStatistics [10, 25, 45, 70]).maxAge = some 70 ∧
     (getAgeDistribution [10, 25, 45, 70]).averageAge = 75 / 2 ∧
     (getAgeDistribution [10, 25, 45, 70]).ageRangeMin = 10 ∧
     (getAgeDistribution [10, 25, 45, 70]).ageRangeMax = 70) := by
  refine ⟨rfl, ?_, ?_, ?_, ?_, ?_, ?_, ?_, ?_, ?_, ?_, ?_, ?_⟩
  · simp [getAgeStatistics, List.filter_filter]
  · simp [getAgeStatistics, List.filter_filter]
  · simp [getAgeStatistics, List.filter_filter]
  · simp [getAgeStatistics, List.filter_filter]
  · simp only [getAgeStatistics]
    exact bucket_partition _
  · intro q hq
    simp only [getAgeStatistics] at hq ⊢
    by_cases hl : (table.filter fun a => decide (0 < a)).length = 0
    · rw [if_pos hl] at hq; exact Option.noConfusion hq
    · rw [if_neg hl] at hq
      have hq' : ((table.filter fun a => decide (0 < a)).map fun a => (a : ℚ)).sum
          / ((table.filter fun a => decide (0 < a)).length : ℚ) = q := by
        injection hq
      have hne : (((table.filter fun a => decide (0 < a)).length : ℕ) : ℚ) ≠ 0 :=
        Nat.cast_ne_zero.mpr hl
      rw [← hq']
      exact div_mul_cancel₀ _ hne
  · by_cases hl : (table.filter fun a => decide (0 < a)).length = 0 <;>
      simp [getAgeStatistics, hl]
  · intro m hm
    simp only [getAgeStatistics] at hm
    exact sqlMin_spec _ m hm
  · intro m hm
    simp only [getAgeStatistics] at hm
    exact sqlMax_spec _ m hm
  · intro h0
    have he : table.filter (fun a => decide (0 < a)) = [] :=
      List.length_eq_zero.mp h0
    refine ⟨?_, ?_, ?_, ?_, ?_⟩ <;>
      simp [getAgeStatistics, getAgeDistribution, he]
  · intro h0
    simp [getAgeDistribution, h0]
  · have hr : round1 ((75 : ℚ) / 2) = 75 / 2 := by
      unfold round1
      rw [show ((75 : ℚ) / 2) * 10 = ((375 : ℤ) : ℚ) by norm_num, round_intCast]
      norm_num
    have hs : (getAgeStatistics [10, 25, 45, 70]).averageAge = some (75 / 2) := by
      norm_num [getAgeStatistics]
    refine ⟨by decide, by decide, by decide, by decide, by decide, hs,
      by decide, by decide, ?_, ?_, ?_⟩
    · simp [getAgeDistribution, hs, hr]
      norm_num [getAgeStatistics]
    · simp [getAgeDistribution]
      norm_num [getAgeStatistics]
      decide
    · simp [getAgeDistribution]
      norm_num [getAgeStatistics]
      decide

/-- Witness for C2: the minimum reported on the example ages is a member
of the positive-age rows and a lower bound of them. -/
theorem C2_age_statistics_report_witness :
    (getAgeStatistics [10, 25, 45, 70]).minAge = some 10 ∧
    (10 ∈ ([10, 25, 45, 70] : List ℤ).filter (fun a => decide (0 < a)) ∧
      ∀ x ∈ ([10, 25, 45, 70] : List ℤ).filter (fun a => decide (0 < a)), 10 ≤ x) :=
  ⟨by decide,
   (C2_age_statistics_report [10, 25, 45, 70]).2.2.2.2.2.2.2.2.1 10 (by decide)⟩

theorem chunksOfAux_nil {α : Type} (bs fuel : ℕ) :
    chunksOfAux bs fuel ([] : List α) = [] := by
  cases fuel <;> rfl

theorem chunksOfAux_join {α : Type} (bs : ℕ) :
    ∀ (fuel : ℕ) (l : List α), l.length ≤ fuel →
      (chunksOfAux bs fuel l).flatten = l := by
  intro fuel
  induction fuel with
  | zero =>
    intro l hl
    rw [List.length_eq_zero.mp (Nat.le_zero.mp hl)]
    rfl
  | succ fuel ih =>
    intro l hl
    cases l with
    | nil => rfl
    | cons a t =>
      have hdrop : ((a :: t).drop (max bs 1)).length ≤ fuel := by
        simp only [List.length_drop, List.length_cons]
        have := le_max_right bs 1
        simp only [List.length_cons] at hl
        omega
      simp only [chunksOfAux, List.flatten_cons]
      rw [ih _ hdrop]
      exact List.take_append_drop _ _

theorem chunksOf_join {α : Type} (bs : ℕ) (l : List α) :
    (chunksOf bs l).flatten = l :=
  chunksOfAux_join bs l.length l le_rfl

theorem chunksOfAux_mem {α : Type} (bs : ℕ) :
    ∀ (fuel : ℕ) (l : List α) (c : List α), l.length ≤ fuel →
      c ∈ chunksOfAux bs fuel l → c ≠ [] ∧ c.length ≤ max bs 1 := by
  intro fuel
  induction fuel with
  | zero =>
    intro l c hl hc
    rw [List.length_eq_zero.mp (Nat.le_zero.mp hl)] at hc
    exact absurd hc (by simp [chunksOfAux])
  | succ fuel ih =>
    intro l c hl hc
    cases l with
    | nil => exact absurd hc (by simp [chunksOfAux])
    | cons a t =>
      simp only [chunksOfAux] at hc
      rcases List.mem_cons.mp hc with rfl | hc'
      · constructor
        · have h1 : 1 ≤ max bs 1 := le_max_right bs 1
          cases hmax : max bs 1 with
          | zero => omega
          | succ m => simp [List.take]
        · rw [List.length_take]
          exact min_le_left _ _
      · have hdrop : ((a :: t).drop (max bs 1)).length ≤ fuel := by
          simp only [List.length_drop, List.length_cons]
          have := le_max_right bs 1
          simp only [List.length_cons] at hl
          omega
        exact ih _ c hdrop hc'

theorem chunksOfAux_dropLast {α : Type} (bs : ℕ) :
    ∀ (fuel : ℕ) (l : List α) (c : List α), l.length ≤ fuel →
      c ∈ (chunksOfAux bs fuel l).dropLast → c.length = max bs 1 := by
  intro fuel
  induction fuel with
  | zero =>
    intro l c hl hc
    rw [List.length_eq_zero.mp (Nat.le_zero.mp hl)] at hc
    exact absurd hc (by simp [chunksOfAux])
  | succ fuel ih =>
    intro l c hl hc
    cases l with
    | nil => exact absurd hc (by simp [chunksOfAux])
    | cons a t =>
      simp only [chunksOfAux] at hc
      cases hrest : chunksOfAux bs fuel ((a :: t).drop (max bs 1)) with
      | nil => rw [hrest] at hc; exact absurd hc (by simp)
      | cons r rs =>
        rw [hrest, List.dropLast_cons_of_ne_nil (by simp)] at hc
        have hdrop : ((a :: t).drop (max bs 1)).length ≤ fuel := by
          simp only [List.length_drop, List.length_cons]
          have := le_max_right bs 1
          simp only [List.length_cons] at hl
          omega
        rcases List.mem_cons.mp hc with rfl | hc'
        · have hne : (a :: t).drop (max bs 1) ≠ [] := by
            intro he
            rw [he, chunksOfAux_nil] at hrest
            exact List.noConfusion hrest
          have hlen : max bs 1 < (a :: t).length := by
            by_contra hcon
            exact hne (List.drop_eq_nil_of_le (by omega))
          rw [List.length_take]
          exact min_eq_left (le_of_lt hlen)
        · exact ih _ c hdrop (hrest ▸ hc')

theorem chunksOfAux_length {α : Type} (bs : ℕ) (hbs : 1 ≤ bs) :
    ∀ (fuel : ℕ) (l : List α), l.length ≤ fuel →
      (chunksOfAux bs fuel l).length = (l.length + bs - 1) / bs := by
  have hmax : max bs 1 = bs := max_eq_left hbs
  intro fuel
  induction fuel with
  | zero =>
    intro l hl
    rw [List.length_eq_zero.mp (Nat.le_zero.mp hl), chunksOfAux_nil]
    simp only [List.length_nil]
    symm
    exact Nat.div_eq_of_lt (by omega)
  | succ fuel ih =>
    intro l hl
    cases l with
    | nil =>
      rw [chunksOfAux_nil]
      simp only [List.length_nil]
      symm
      exact Nat.div_eq_of_lt (by omega)
    | cons a t =>
      simp only [chunksOfAux, hmax, List.length_cons]
      have hdrop : ((a :: t).drop bs).length ≤ fuel := by
        simp only [List.length_drop, List.length_cons]
        simp only [List.length_cons] at hl
        omega
      rw [ih _ hdrop]
      simp only [List.length_drop, List.length_cons]
      by_cases hnb : t.length + 1 ≤ bs
      · have h1 : t.length + 1 - bs = 0 := by omega
        rw [h1]
        have h2 : (0 + bs - 1) / bs = 0 := Nat.div_eq_of_lt (by omega)
        rw [h2]
        symm
        have h3 : t.length + 1 + bs - 1 = t.length + bs := by omega
        rw [h3, Nat.add_div_right _ (by omega)]
        have h4 : t.length / bs = 0 := Nat.div_eq_of_lt (by omega)
        omega
      · have h3 : t.length + 1 - bs + bs - 1 = t.length := by omega
        rw [h3]
        have h4 : t.length + 1 + bs - 1 = t.length + bs := by omega
        rw [h4, Nat.add_div_right _ (by omega)]

theorem chunksOf_length {α : Type} (bs : ℕ) (hbs : 1 ≤ bs) (l : List α) :
    (chunksOf bs l).length = (l.length + bs - 1) / bs :=
  chunksOfAux_length bs hbs l.length l le_rfl

theorem batchRun_success (fail : ℕ → Bool) (hf : ∀ k, fail k = false) :
    ∀ (chs : List (List Record)) (k cnt : ℕ) (db : DBState),
      batchRun fail chs k cnt db =
        (DBState.mk (db.committed ++ db.txBuffer ++ chs.flatten.map prepareUserData)
          []
          (db.trace ++ chs.map (fun c => DBOp.opInsert (c.map prepareUserData))
            ++ [DBOp.opCommit]),
         Except.ok (cnt + chs.flatten.length)) := by
  intro chs
  induction chs with
  | nil => intro k cnt db; simp [batchRun]
  | cons c rest ih =>
    intro k cnt db
    simp only [batchRun, hf k, Bool.false_eq_true, if_false, insertUserBatch]
    rw [ih]
    simp [List.append_assoc, List.length_map, List.length_append]
    omega

theorem batchRun_fail (fail : ℕ → Bool) :
    ∀ (chs : List (List Record)) (k cnt : ℕ) (db : DBState),
      (∃ j, j < chs.length ∧ fail (k + j) = true) →
      (batchRun fail chs k cnt db).1.committed = db.committed ∧
      (batchRun fail chs k cnt db).2 = Except.error () := by
  intro chs
  induction chs with
  | nil =>
    intro k cnt db h
    obtain ⟨j, hj, _⟩ := h
    simp at hj
  | cons c rest ih =>
    intro k cnt db h
    by_cases hk : fail k = true
    · simp [batchRun, hk]
    · obtain ⟨j, hj, hfj⟩ := h
      cases j with
      | zero => exact absurd hfj (by simpa using hk)
      | succ j' =>
        have hex : ∃ j, j < rest.length ∧ fail ((k + 1) + j) = true := by
          refine ⟨j', by simpa using hj, ?_⟩
          rw [show k + 1 + j' = k + (j' + 1) by omega]
          exact hfj
        simp only [batchRun, hk, Bool.false_eq_true, if_false, insertUserBatch]
        exact ih (k + 1) _ _ hex

theorem batchInsertUsers_success (fail : ℕ → Bool) (bs : ℕ) (users : List Record)
    (db : DBState) (hf : ∀ k, fail k = false) :
    batchInsertUsers fail bs users db =
      (DBState.mk (db.committed ++ users.map prepareUserData) []
        (db.trace ++ [DBOp.opBegin]
          ++ (chunksOf bs users).map (fun c => DBOp.opInsert (c.map prepareUserData))
          ++ [DBOp.opCommit]),
       Except.ok users.length) := by
  unfold batchInsertUsers
  rw [batchRun_success fail hf]
  simp [chunksOf_join, List.append_assoc]

theorem trace_filter_inserts (chs : List (List Record)) :
    ((([DBOp.opBegin] ++ chs.map (fun c => DBOp.opInsert (c.map prepareUserData)))
      ++ [DBOp.opCommit]).filter DBOp.isInsert).length = chs.length := by
  simp [List.filter_append, List.filter_map, Function.comp, DBOp.isInsert]

theorem batchInsertUsers_fail (fail : ℕ → Bool) (bs : ℕ) (users : List Record)
    (db : DBState) (h : ∃ k, k < (chunksOf bs users).length ∧ fail k = true) :
    (batchInsertUsers fail bs users db).1.committed = db.committed ∧
    (batchInsertUsers fail bs users db).2 = Except.error () := by
  unfold batchInsertUsers
  have h' : ∃ j, j < (chunksOf bs users).length ∧ fail (0 + j) = true := by
    simpa using h
  exact batchRun_fail fail (chunksOf bs users) 0 0 _ h'

/-- C1: the batch persister partitions the input into consecutive chunks of
the configured size (the last chunk may be shorter), writes every chunk
inside the single transaction opened over the entire input, commits once on
success returning the total inserted count, and on any chunk failure rolls
the whole transaction back so that no new row is committed; for 2500
records with chunk size 1000 it issues exactly 3 chunked inserts inside one
transaction, and a failure injected in the third chunk leaves 0 committed
rows. -/
theorem C1_batch_insert_transactional (users : List Record) (bs : ℕ)
    (fail : ℕ → Bool) (db : DBState) (hbs : 1 ≤ bs) :
    ((chunksOf bs users).flatten = users) ∧
    (∀ c ∈ chunksOf bs users, c ≠ [] ∧ c.length ≤ bs) ∧
    (∀ c ∈ (chunksOf bs users).dropLast, c.length = bs) ∧
    ((∀ k, fail k = false) →
      batchInsertUsers fail bs users db =
        (DBState.mk (db.committed ++ users.map prepareUserData) []
          (db.trace ++ [DBOp.opBegin]
            ++ (chunksOf bs users).map (fun c => DBOp.opInsert (c.map prepareUserData))
            ++ [DBOp.opCommit]),
         Except.ok users.length)) ∧
    ((∃ k, k < (chunksOf bs users).length ∧ fail k = true) →
      (batchInsertUsers fail bs users db).1.committed = db.committed ∧
      (batchInsertUsers fail bs users db).2 = Except.error ()) ∧
    ((chunksOf 1000 (List.replicate 2500 ([] : Record))).length = 3 ∧
     ((batchInsertUsers (fun _ => false) 1000 (List.replicate 2500 ([] : Record))
        (DBState.mk [] [] [])).1.trace.filter DBOp.isInsert).length = 3 ∧
     (batchInsertUsers (fun k => decide (k = 2)) 1000
        (List.replicate 2500 ([] : Record)) (DBState.mk [] [] [])).1.committed = [] ∧
     (batchInsertUsers (fun k => decide (k = 2)) 1000
        (List.replicate 2500 ([] : Record)) (DBState.mk [] [] [])).2
       = Except.error ()) := by
  have hmax : max bs 1 = bs := max_eq_left hbs
  refine ⟨chunksOf_join bs users, ?_, ?_, ?_, ?_, ?_⟩
  · intro c hc
    have hm := chunksOfAux_mem bs users.length users c le_rfl hc
    rw [hmax] at hm
    exact hm
  · intro c hc
    have hm := chunksOfAux_dropLast bs users.length users c le_rfl hc
    rw [hmax] at hm
    exact hm
  · intro hf
    exact batchInsertUsers_success fail bs users db hf
  · intro hex
    exact batchInsertUsers_fail fail bs users db hex
  · have hlen : (chunksOf 1000 (List.replicate 2500 ([] : Record))).length = 3 := by
      rw [chunksOf_length 1000 (by omega), List.length_replicate]
    refine ⟨hlen, ?_, ?_, ?_⟩
    · rw [batchInsertUsers_success _ _ _ _ (fun k => rfl)]
      exact (trace_filter_inserts _).trans hlen
    · exact (batchInsertUsers_fail _ _ _ _ ⟨2, by rw [hlen]; omega, rfl⟩).1
    · exact (batchInsertUsers_fail _ _ _ _ ⟨2, by rw [hlen]; omega, rfl⟩).2

/-- Witness for C1 at a small concrete batch. -/
theorem C1_batch_insert_transactional_witness :
    1 ≤ 2 ∧
    (chunksOf 2 [[], [], ([] : Record)]).flatten = [[], [], ([] : Record)] :=
  ⟨by decide,
   (C1_batch_insert_transactional [[], [], ([] : Record)] 2 (fun _ => false)
     (DBState.mk [] [] []) (by decide)).1⟩

end CsvToJson
